import Mathlib

/-!
Shallow embedding of `src/ethcore/src/miner/miner.rs` (block-authoring and
sealing core).  Machine integers (`U256`, `u64`, `usize`) are embedded as
`Nat`; `Instant`/`Duration` are embedded as `Nat` time stamps passed in
explicitly where the source calls `Instant::now()`.  Collaborators that live
outside `src/` (chain client, transaction pool, consensus engine, block
open/push/close operations) are abstracted as function fields of an `Env`
record, exactly at the call boundaries the source uses.  The `using_queue`
crate is not under `src/` either; it is modelled from the spec (§4.1), see
`UsingQueue` below.
-/

namespace Parity

/-- Transaction action: `Action::Call(address)` or `Action::Create`. -/
inductive TxAction where
  | Call (target : Nat)
  | Create
deriving DecidableEq

/-- A signed transaction, reduced to the fields the miner reads:
hash, sender, nonce, data, action and gas. -/
structure SignedTransaction where
  hash : Nat
  sender : Nat
  nonce : Nat
  data : List Nat
  action : TxAction
  gas : Nat
deriving DecidableEq

/-- A receipt, reduced to the fields the miner reads
(`gas_used` is cumulative, as in the source). -/
structure Receipt where
  gas_used : Nat
  logs : List Nat
  log_bloom : Nat
  outcome : Nat
deriving DecidableEq

/-- `RichReceipt` as assembled by `Miner::pending_receipt`. -/
structure RichReceipt where
  transaction_hash : Nat
  transaction_index : Nat
  cumulative_gas_used : Nat
  gas_used : Nat
  contract_address : Option Nat
  logs : List Nat
  log_bloom : Nat
  outcome : Nat
deriving DecidableEq

/-- A block header, reduced to the fields the miner reads; `hash` embeds the
header hash (computed by a collaborator in the source). -/
structure Header where
  number : Nat
  parent_hash : Nat
  hash : Nat
  difficulty : Nat
deriving DecidableEq

/-- `ClosedBlock`: a fully assembled but unsealed block.  Opaque to the core
except for the fields below (spec §3).  The same record also stands for the
transient `OpenBlock`, whose mutation is performed by collaborator functions. -/
structure ClosedBlock where
  header : Header
  transactions : List SignedTransaction
  receipts : List Receipt
  state : Nat
deriving DecidableEq

/-- `ClosedBlock::hash` (delegates to the header hash). -/
def ClosedBlock.hash (b : ClosedBlock) : Nat := b.header.hash

/-- A sealed block: a closed block together with its seal (`Vec<Bytes>`). -/
structure SealedBlock where
  block : ClosedBlock
  seal_data : List (List Nat)
deriving DecidableEq

/-- `PendingSet`: which source read-queries about pending transactions use. -/
inductive PendingSet where
  | AlwaysQueue
  | AlwaysSealing
deriving DecidableEq

/-- `DEFAULT_MINIMAL_GAS_PRICE`. -/
def DEFAULT_MINIMAL_GAS_PRICE : Nat := 20000000000

/-- `U256::max_value()`. -/
def U256_MAX : Nat := 2 ^ 256 - 1

/-- `MinerOptions` (pool limits and verification options are collaborator
configuration, embedded as bare tuples of naturals). -/
structure MinerOptions where
  force_sealing : Bool
  reseal_on_external_tx : Bool
  reseal_on_own_tx : Bool
  reseal_on_uncle : Bool
  reseal_min_period : Nat
  reseal_max_period : Nat
  pending_set : PendingSet
  work_queue_size : Nat
  enable_resubmission : Bool
  infinite_pending_block : Bool
  refuse_service_transactions : Bool
  pool_limits : Nat × Nat × Nat
  pool_verification_options : Nat × Nat × Nat
deriving DecidableEq

/-- `impl Default for MinerOptions`. -/
def MinerOptions.default : MinerOptions where
  force_sealing := false
  reseal_on_external_tx := false
  reseal_on_own_tx := true
  reseal_on_uncle := false
  pending_set := PendingSet.AlwaysQueue
  reseal_min_period := 2
  reseal_max_period := 120
  work_queue_size := 20
  enable_resubmission := true
  infinite_pending_block := false
  refuse_service_transactions := false
  pool_limits := (16384, 64, 8 * 1024 * 1024)
  pool_verification_options := (DEFAULT_MINIMAL_GAS_PRICE, U256_MAX, U256_MAX)

/-- `AuthoringParams`. -/
structure AuthoringParams where
  gas_range_target : Nat × Nat
  author : Nat
  extra_data : List Nat
deriving DecidableEq

/-- `impl Default for AuthoringParams` (derived `Default` in the source). -/
def AuthoringParams.default : AuthoringParams where
  gas_range_target := (0, 0)
  author := 0
  extra_data := []

/-- `GetAction` of the `using_queue` crate. -/
inductive GetAction where
  | Take
  | Clone
deriving DecidableEq

/-- Modelled from the spec: the `using_queue` crate (type `UsingQueue<T>`)
is not under `src/`; this record follows §4.1 "Bounded Work History": an
ordered sequence (oldest first, newest last) of at most `max_size` elements
with a "last used" marker. -/
structure UsingQueue (α : Type) where
  max_size : Nat
  pending : List α
  in_use : Bool
deriving DecidableEq

/-- Modelled from the spec: `UsingQueue::new(max_size)` — empty history. -/
def UsingQueue.new (α : Type) (max_size : Nat) : UsingQueue α :=
  { max_size := max_size, pending := [], in_use := false }

/-- Modelled from the spec (§4.1): "*push(b)*: appends; if length > N, drops
the oldest; clears `in use`". -/
def UsingQueue.push {α : Type} (q : UsingQueue α) (b : α) : UsingQueue α :=
  let appended := q.pending ++ [b]
  { q with
    pending := if q.max_size < appended.length then appended.tail else appended
    in_use := false }

/-- Modelled from the spec (§4.1): "*peek-last*: borrows the newest element
or nothing". -/
def UsingQueue.peek_last_ref {α : Type} (q : UsingQueue α) : Option α :=
  q.pending.getLast?

/-- Modelled from the spec (§4.1): "*pop-if(pred)*: if the newest element
satisfies `pred`, remove and return it; else leave history untouched and
return nothing". -/
def UsingQueue.pop_if {α : Type} (q : UsingQueue α) (pred : α → Bool) :
    Option α × UsingQueue α :=
  match q.pending.getLast? with
  | none => (none, q)
  | some b =>
    if pred b then (some b, { q with pending := q.pending.dropLast })
    else (none, q)

/-- Removes the last (newest) element of a list satisfying `p`, returning it
together with the remaining list; helper for the newest-to-oldest scan of
`UsingQueue.get_used_if`. -/
def removeLastMatching {α : Type} (p : α → Bool) : List α → Option (α × List α)
  | [] => none
  | x :: xs =>
    match removeLastMatching p xs with
    | some (y, ys) => some (y, x :: ys)
    | none => if p x then some (x, xs) else none

/-- Modelled from the spec (§4.1): "*get(action, pred)*: scan from newest to
oldest for an element matching `pred`; on match, either *clone* (leave in
place, mark in-use) or *take* (remove, mark in-use)". -/
def UsingQueue.get_used_if {α : Type} (q : UsingQueue α) (action : GetAction)
    (pred : α → Bool) : Option α × UsingQueue α :=
  match removeLastMatching pred q.pending with
  | none => (none, q)
  | some (b, rest) =>
    match action with
    | GetAction.Clone => (some b, { q with in_use := true })
    | GetAction.Take => (some b, { q with pending := rest, in_use := true })

/-- Modelled from the spec (§4.1): "*mark-last-used*" (`use_last_ref` marks
the newest entry as used). -/
def UsingQueue.use_last_ref {α : Type} (q : UsingQueue α) : UsingQueue α :=
  { q with in_use := true }

/-- Modelled from the spec (§4.1): "*is-in-use*". -/
def UsingQueue.is_in_use {α : Type} (q : UsingQueue α) : Bool := q.in_use

/-- Modelled from the spec (§4.1): "*reset*: drop all entries, clear in-use". -/
def UsingQueue.reset {α : Type} (q : UsingQueue α) : UsingQueue α :=
  { q with pending := [], in_use := false }

/-- `SealingWork`: the sealing state (spec component C3). -/
structure SealingWork where
  queue : UsingQueue ClosedBlock
  enabled : Bool
  next_allowed_reseal : Nat
  next_mandatory_reseal : Nat
  sealing_block_last_request : Nat
deriving DecidableEq

/-- `SealingWork::reseal_allowed`: `Instant::now() > self.next_allowed_reseal`
(`now` passed explicitly). -/
def SealingWork.reseal_allowed (s : SealingWork) (now : Nat) : Bool :=
  s.next_allowed_reseal < now

/-- The `Miner` state: sealing state, authoring params, listener count
(the listener vector is reduced to its length — only emptiness is read by
the core logic) and options.  `accounts` records the presence of the
`Option<Arc<AccountProvider>>`. -/
structure Miner where
  sealing : SealingWork
  params : AuthoringParams
  listeners : Nat
  options : MinerOptions
  accounts : Bool
deriving DecidableEq

/-- `SEALING_TIMEOUT_IN_BLOCKS`. -/
def SEALING_TIMEOUT_IN_BLOCKS : Nat := 5

/-- `Miner::forced_sealing`: `options.force_sealing || !listeners.is_empty()`. -/
def forced_sealing (m : Miner) : Bool :=
  m.options.force_sealing || !(m.listeners == 0)

/-- `Miner::new` (state part): the transaction queue, gas pricer and engine
are collaborators; `seals_internally` is the engine's answer at
construction time and `now` the construction instant. -/
def Miner.new (options : MinerOptions) (seals_internally : Option Bool)
    (now : Nat) (accounts : Bool) : Miner where
  sealing :=
    { queue := UsingQueue.new ClosedBlock options.work_queue_size
      enabled := options.force_sealing || seals_internally.isSome
      next_allowed_reseal := now
      next_mandatory_reseal := now + options.reseal_max_period
      sealing_block_last_request := 0 }
  params := AuthoringParams.default
  listeners := 0
  options := options
  accounts := accounts

/-- `Seal` returned by `Engine::generate_seal`. -/
inductive Seal where
  | Proposal (s : List (List Nat))
  | Regular (s : List (List Nat))
  | None
deriving DecidableEq

/-- Result of `client.verify_signed(&tx).and_then(|_| open_block.push_transaction(tx, None))`
for one transaction, as matched in `Miner::prepare_block`. -/
inductive PushResult where
  | Ok
  | BlockGasLimitReached (gas_limit gas_used gas : Nat)
  | InvalidNonce (expected got : Nat)
  | AlreadyImported
  | NotAllowed
  | OtherError
deriving DecidableEq

/-- Per-transaction result of `TransactionQueue::import`
(`Result<(), transaction::Error>`; the error is reduced to a code). -/
inductive TxResult where
  | ok
  | failed (code : Nat)
deriving DecidableEq

/-- Transactions as handed to `TransactionQueue::import`, tagged
`Unverified` / `Local` / `Retracted`. -/
inductive PoolTx where
  | Unverified (tx : SignedTransaction)
  | Local (tx : SignedTransaction)
  | Retracted (tx : SignedTransaction)
deriving DecidableEq

/-- Errors surfaced by `Miner::submit_seal` (`Error::PowHashInvalid`,
`Error::PowInvalid`, or a chain-client error from `import_sealed_block`). -/
inductive MinerError where
  | PowHashInvalid
  | PowInvalid
  | ImportFailed
deriving DecidableEq

/-- `SignError` from the account provider, reduced to the variants
`Miner::set_author` distinguishes. -/
inductive AccountError where
  | NotFound
  | SignFailed (code : Nat)
deriving DecidableEq

/-- One frozen snapshot of every collaborator the miner calls out to:
chain client (`chain_info`, `block_header`, block building and import),
transaction pool (reads; its own state is internal to the pool crate),
and consensus engine.  Each field embeds exactly one call boundary of the
source. -/
structure Env where
  now : Nat
  best_block_hash : Nat
  best_block_number : Nat
  best_block_timestamp : Nat
  has_local_transactions : Bool
  seals_internally : Option Bool
  contains_bugfix_hard_fork : Bool
  dust_protection_transition : Nat
  nonce_cap_increment : Nat
  reopen_block : ClosedBlock → ClosedBlock
  prepare_open_block : AuthoringParams → ClosedBlock
  set_infinite_gas : ClosedBlock → ClosedBlock
  push_transaction : ClosedBlock → SignedTransaction → ClosedBlock × PushResult
  close : ClosedBlock → ClosedBlock
  pending_txs : List SignedTransaction
  block_header : Nat → Option Header
  generate_seal : ClosedBlock → Header → Seal
  seal_block : ClosedBlock → List (List Nat) → Option SealedBlock
  try_seal : ClosedBlock → List (List Nat) → Option SealedBlock
  import_sealed_block : SealedBlock → Bool
  pool_import : List PoolTx → List TxResult
  account_sign : Nat → Nat → Option AccountError

/-- `Miner::requires_reseal` (lines 467-497).  Faithful to the source,
including the `if sealing.enabled { return false }` gate (note: the trace
message on that branch says "sealing is disabled").  Returns the boolean
together with the updated miner state. -/
def requires_reseal (m : Miner) (env : Env) (best_block : Nat) : Bool × Miner :=
  let sealing := m.sealing
  if sealing.enabled then (false, m)
  else
    let has_local_transactions := env.has_local_transactions
    let last_request := sealing.sealing_block_last_request
    let sealing_enabled := forced_sealing m
      || has_local_transactions
      || env.seals_internally.isSome
      || (decide (last_request < best_block)
          && decide (SEALING_TIMEOUT_IN_BLOCKS < best_block - last_request))
    let should_disable_sealing := !sealing_enabled
    if should_disable_sealing then
      (false, { m with sealing :=
        { sealing with enabled := false, queue := sealing.queue.reset } })
    else
      (true, { m with sealing :=
        { sealing with next_allowed_reseal := env.now + m.options.reseal_min_period } })

/-- `Miner::from_pending_block` (lines 284-297): dispatch on the newest
work-history entry, falling back to `from_chain` when the history is empty
or the newest entry is not newer than `latest_block_number`. -/
def from_pending_block {H : Type} (m : Miner) (latest_block_number : Nat)
    (from_chain : Unit → H) (map_block : ClosedBlock → H) : H :=
  match m.sealing.queue.peek_last_ref with
  | Option.none => from_chain ()
  | some b =>
    if latest_block_number < b.header.number then map_block b else from_chain ()

/-- `Miner::map_existing_pending_block`. -/
def map_existing_pending_block {T : Type} (m : Miner) (f : ClosedBlock → T)
    (latest_block_number : Nat) : Option T :=
  from_pending_block m latest_block_number (fun _ => Option.none)
    (fun block => some (f block))

/-- `Miner::pending_state`: clone of the pending block state. -/
def pending_state (m : Miner) (latest_block_number : Nat) : Option Nat :=
  map_existing_pending_block m (fun b => b.state) latest_block_number

/-- `Miner::pending_block`: `b.to_base()` — the base block
(header + transactions). -/
def pending_block (m : Miner) (latest_block_number : Nat) :
    Option (Header × List SignedTransaction) :=
  map_existing_pending_block m (fun b => (b.header, b.transactions)) latest_block_number

/-- `Miner::pending_block_header`: clone of the pending block header. -/
def pending_block_header (m : Miner) (latest_block_number : Nat) : Option Header :=
  map_existing_pending_block m (fun b => b.header) latest_block_number

/-- `Miner::pending_transactions` (lines 817-823): reads the newest
work-history entry via `from_pending_block`, never the pool. -/
def pending_transactions (m : Miner) (best_block : Nat) :
    Option (List SignedTransaction) :=
  from_pending_block m best_block (fun _ => Option.none)
    (fun pending => some pending.transactions)

/-- `Miner::pending_receipt` (lines 826-860).  `contract_address` and
`Engine::create_address_scheme` are collaborators, abstracted as the two
function arguments.  The source indexes `receipts[index]` under the closed
block invariant `|receipts| = |transactions|`; out-of-range indexing (a
panic in the source) is embedded with a zero default. -/
def pending_receipt (m : Miner) (create_address_scheme : Nat → Nat)
    (contract_address : Nat → Nat → Nat → List Nat → Nat)
    (best_block : Nat) (hash : Nat) : Option RichReceipt :=
  from_pending_block m best_block (fun _ => Option.none)
    (fun pending =>
      let txs := pending.transactions
      ((txs.map (fun t => t.hash)).findIdx? (fun t => t == hash)).map
        (fun index =>
          let receipts := pending.receipts
          let prev_gas := if index == 0 then 0
            else (receipts.getD (index - 1) ⟨0, [], 0, 0⟩).gas_used
          let tx := txs.getD index ⟨0, 0, 0, [], TxAction.Create, 0⟩
          let receipt := receipts.getD index ⟨0, [], 0, 0⟩
          { transaction_hash := hash
            transaction_index := index
            cumulative_gas_used := receipt.gas_used
            gas_used := receipt.gas_used - prev_gas
            contract_address :=
              match tx.action with
              | TxAction.Call _ => Option.none
              | TxAction.Create =>
                some (contract_address
                  (create_address_scheme pending.header.number)
                  tx.sender tx.nonce tx.data)
            logs := receipt.logs
            log_bloom := receipt.log_bloom
            outcome := receipt.outcome }))

/-- `Miner::pending_receipts` (lines 862-874): zips transaction hashes with
receipts from the newest work-history entry (the source collects the zip
into a `BTreeMap`; the association list keeps the zip order). -/
def pending_receipts (m : Miner) (best_block : Nat) :
    Option (List (Nat × Receipt)) :=
  from_pending_block m best_block (fun _ => Option.none)
    (fun pending =>
      some (List.zip (pending.transactions.map (fun t => t.hash)) pending.receipts))

/-- The pending-transactions query as the spec sentence behind claim C2
describes it (NOT the source): "route by `pending_set` mode; `AlwaysQueue`
reads live from the pool" (the pool's current ready transactions are the
`pool` argument). -/
def pending_transactions_claimed (m : Miner) (pool : List SignedTransaction)
    (best_block : Nat) : Option (List SignedTransaction) :=
  match m.options.pending_set with
  | PendingSet.AlwaysQueue => some pool
  | PendingSet.AlwaysSealing =>
    from_pending_block m best_block (fun _ => Option.none)
      (fun pending => some pending.transactions)

/-- State threaded through the transaction drain of `Miner::prepare_block`:
the invalid / not-allowed hash sets (embedded as dedup-inserting lists),
the pushed-transaction count and the skipped counter. -/
structure DrainState where
  invalid_transactions : List Nat
  not_allowed_transactions : List Nat
  tx_count : Nat
  skipped_transactions : Nat
deriving DecidableEq

/-- `HashSet::insert`. -/
def hashInsert (h : Nat) (s : List Nat) : List Nat :=
  if h ∈ s then s else h :: s

/-- One iteration of the `for tx in pending` match in `Miner::prepare_block`
(lines 406-447): classify the push result, update the drain state, and
report whether the loop `break`s.  The `U256` subtraction
`gas_limit - gas_used` never underflows in the source (gas used on an open
block is bounded by its gas limit); `Nat` subtraction agrees there. -/
def drain_step (st : DrainState) (hash : Nat) (result : PushResult) :
    DrainState × Bool :=
  match result with
  | PushResult.BlockGasLimitReached gas_limit gas_used gas =>
    let st := if gas_limit < gas then
        { st with invalid_transactions := hashInsert hash st.invalid_transactions }
      else st
    let min_tx_gas : Nat := 21000
    let gas_left := gas_limit - gas_used
    if gas_left < min_tx_gas then (st, true)
    else
      let st := { st with skipped_transactions := st.skipped_transactions + 1 }
      if 8 < st.skipped_transactions then (st, true) else (st, false)
  | PushResult.InvalidNonce _ _ => (st, false)
  | PushResult.AlreadyImported => (st, false)
  | PushResult.NotAllowed =>
    ({ st with not_allowed_transactions := hashInsert hash st.not_allowed_transactions },
     false)
  | PushResult.OtherError =>
    ({ st with invalid_transactions := hashInsert hash st.invalid_transactions }, false)
  | PushResult.Ok => ({ st with tx_count := st.tx_count + 1 }, false)

/-- The transaction drain of `Miner::prepare_block`: verify-and-push each
pool transaction (one `env`-collaborator call per transaction) onto the open
block, classifying failures with `drain_step` and stopping on `break`. -/
def drain (push : ClosedBlock → SignedTransaction → ClosedBlock × PushResult) :
    ClosedBlock → DrainState → List SignedTransaction → ClosedBlock × DrainState
  | b, st, [] => (b, st)
  | b, st, tx :: rest =>
    let (b', result) := push b tx
    let (st', brk) := drain_step st tx.hash result
    if brk then (b', st') else drain push b' st' rest

/-- `Miner::prepare_block` (lines 309-464).  Returns
`((closed block, prior-newest-hash), miner')` plus the final drain state
(whose invalid / not-allowed sets the source hands to
`transaction_queue.remove`, a pool collaborator call).  The `nonce_cap`
computed at lines 360-364 is embedded but unused, as in the source (its
only consumer is commented out). -/
def prepare_block (m : Miner) (env : Env) :
    (ClosedBlock × Option Nat) × Miner × DrainState :=
  let sealing := m.sealing
  let last_work_hash := sealing.queue.peek_last_ref.map (fun pb => pb.header.hash)
  let best_hash := env.best_block_hash
  let (popped, queue') := sealing.queue.pop_if (fun b => b.header.parent_hash == best_hash)
  let open_block :=
    match popped with
    | some old_block => env.reopen_block old_block
    | Option.none => env.prepare_open_block m.params
  let open_block :=
    if m.options.infinite_pending_block then env.set_infinite_gas open_block
    else open_block
  let m := { m with sealing := { sealing with queue := queue' } }
  let _nonce_cap : Option Nat :=
    if env.dust_protection_transition ≤ env.best_block_number + 1 then
      some (env.nonce_cap_increment * (env.best_block_number + 1))
    else Option.none
  let st0 : DrainState := ⟨[], [], 0, 0⟩
  let (final_block, st) := drain env.push_transaction open_block st0 env.pending_txs
  let block := env.close final_block
  ((block, last_work_hash), m, st)

/-- `Miner::prepare_work` (lines 553-599).  Returns the updated miner, the
work package `(pow-hash, difficulty, number)` pushed (if any) and whether it
was fanned out to the listeners as new work. -/
def prepare_work (m : Miner) (block : ClosedBlock) (original_work_hash : Option Nat) :
    Miner × Option (Nat × Nat × Nat) × Bool :=
  let block_header := block.header
  let block_hash := block_header.hash
  let sealing := m.sealing
  let last_work_hash := sealing.queue.peek_last_ref.map (fun pb => pb.header.hash)
  if last_work_hash.elim true (fun h => h != block_hash) then
    let is_new := original_work_hash.elim true (fun h => h != block_hash)
    let queue := sealing.queue.push block
    let queue := if is_new && !(m.listeners == 0) then queue.use_last_ref else queue
    let m := { m with sealing := { sealing with queue := queue } }
    (m, some (block_hash, block_header.difficulty, block_header.number), is_new)
  else
    (m, Option.none, false)

/-- `Miner::seal_and_import_block_internally` (lines 500-550). -/
def seal_and_import_block_internally (m : Miner) (env : Env) (block : ClosedBlock) :
    Bool × Miner :=
  let sealing := m.sealing
  if block.transactions.isEmpty && !(forced_sealing m)
      && decide (env.now ≤ sealing.next_mandatory_reseal) then
    (false, m)
  else
    match env.block_header block.header.parent_hash with
    | Option.none => (false, m)
    | some parent_header =>
      match env.generate_seal block parent_header with
      | Seal.Proposal s =>
        let sealing :=
          { sealing with
            next_mandatory_reseal := env.now + m.options.reseal_max_period
            queue := (sealing.queue.push block).use_last_ref }
        let m := { m with sealing := sealing }
        (match env.seal_block block s with
         | some _sealed => (true, m)
         | Option.none => (false, m))
      | Seal.Regular s =>
        let sealing :=
          { sealing with
            next_mandatory_reseal := env.now + m.options.reseal_max_period }
        let m := { m with sealing := sealing }
        (match env.seal_block block s with
         | some sealed => (env.import_sealed_block sealed, m)
         | Option.none => (false, m))
      | Seal.None => (false, m)

/-- Observable outcome of one `Miner::update_sealing` call: which branch the
dispatch reached (the constructors mirror the source's control flow; no seal
is produced, imported or broadcast on `NoReseal`, `AbortedBugfixFork` and
`EngineDeclined`). -/
inductive SealingOutcome where
  | NoReseal
  | AbortedBugfixFork
  | SealedInternally (ok : Bool)
  | EngineDeclined
  | PreparedWork
deriving DecidableEq

/-- `Miner::update_sealing` (lines 884-918). -/
def update_sealing (m : Miner) (env : Env) : SealingOutcome × Miner :=
  let (req, m1) := requires_reseal m env env.best_block_number
  if req then
    let ((block, original_work_hash), m2, _st) := prepare_block m1 env
    if block.header.number == 1 && env.contains_bugfix_hard_fork then
      (SealingOutcome.AbortedBugfixFork, m2)
    else
      match env.seals_internally with
      | some true =>
        let (ok, m3) := seal_and_import_block_internally m2 env block
        (SealingOutcome.SealedInternally ok, m3)
      | some false => (SealingOutcome.EngineDeclined, m2)
      | Option.none =>
        let (m3, _work, _is_new) := prepare_work m2 block original_work_hash
        (SealingOutcome.PreparedWork, m3)
  else (SealingOutcome.NoReseal, m1)

/-- `Miner::submit_seal` (lines 929-955). -/
def submit_seal (m : Miner) (env : Env) (block_hash : Nat)
    (s : List (List Nat)) : Except MinerError Unit × Miner :=
  let action := if m.options.enable_resubmission then GetAction.Clone else GetAction.Take
  let (found, queue') := m.sealing.queue.get_used_if action (fun b => b.hash == block_hash)
  let m := { m with sealing := { m.sealing with queue := queue' } }
  match found with
  | Option.none => (Except.error MinerError.PowHashInvalid, m)
  | some b =>
    match env.try_seal b s with
    | Option.none => (Except.error MinerError.PowInvalid, m)
    | some sealed =>
      if env.import_sealed_block sealed then (Except.ok (), m)
      else (Except.error MinerError.ImportFailed, m)

/-- `Miner::import_external_transactions` (lines 704-725).  Returns the pool
results, whether `update_sealing` was triggered, and the resulting state. -/
def import_external_transactions (m : Miner) (env : Env)
    (transactions : List SignedTransaction) :
    List TxResult × Bool × Miner :=
  let results := env.pool_import (transactions.map PoolTx.Unverified)
  if !results.isEmpty && m.options.reseal_on_external_tx
      && m.sealing.reseal_allowed env.now then
    let (_outcome, m') := update_sealing m env
    (results, true, m')
  else
    (results, false, m)

/-- `Miner::set_author` (lines 669-693).  `ap.sign(address, Some(password),
Default::default())` is the collaborator `env.account_sign` (password
`unwrap_or_default()` is embedded as `getD 0`); `engine.set_signer` has no
miner-visible state. -/
def set_author (m : Miner) (env : Env) (address : Nat) (password : Option Nat) :
    Except AccountError Unit × Miner :=
  let m := { m with params := { m.params with author := address } }
  if env.seals_internally.isSome then
    if m.accounts then
      let password := password.getD 0
      match env.account_sign address password with
      | some e => (Except.error e, m)
      | Option.none =>
        let m := { m with sealing := { m.sealing with enabled := true } }
        (Except.ok (), m)
    else
      (Except.error AccountError.NotFound, m)
  else
    (Except.ok (), m)

/-! Concrete fixtures used by witnesses and counterexamples. -/

/-- A candidate block: number 1, parent hash 7, hash 11, difficulty 5,
no transactions. -/
def blk1 : ClosedBlock := ⟨⟨1, 7, 11, 5⟩, [], [], 0⟩

/-- A candidate block with one transaction and one receipt: number 3,
parent hash 7, hash 13. -/
def blk3 : ClosedBlock :=
  ⟨⟨3, 7, 13, 5⟩, [⟨41, 2, 0, [], TxAction.Create, 21000⟩], [⟨21000, [], 0, 1⟩], 9⟩

/-- A sample signed transaction. -/
def txA : SignedTransaction := ⟨41, 2, 0, [], TxAction.Create, 21000⟩

/-- A base collaborator snapshot: empty chain at block 0 with best hash 7, a
quiet pool, an engine with external sealing, a fresh block builder that
authors `blk1`, and accepting seal and import operations. -/
def envBase : Env where
  now := 100
  best_block_hash := 7
  best_block_number := 0
  best_block_timestamp := 0
  has_local_transactions := false
  seals_internally := Option.none
  contains_bugfix_hard_fork := false
  dust_protection_transition := 1000000
  nonce_cap_increment := 64
  reopen_block := id
  prepare_open_block := fun _ => blk1
  set_infinite_gas := id
  push_transaction := fun b _ => (b, PushResult.Ok)
  close := id
  pending_txs := []
  block_header := fun _ => some ⟨0, 0, 7, 1⟩
  generate_seal := fun _ _ => Seal.None
  seal_block := fun b s => some ⟨b, s⟩
  try_seal := fun b s => some ⟨b, s⟩
  import_sealed_block := fun _ => true
  pool_import := fun txs => txs.map (fun _ => TxResult.ok)
  account_sign := fun _ _ => Option.none

/-- Miner built by `Miner::new` with default options (sealing disabled:
no forced sealing, engine seals externally). -/
def mBase : Miner := Miner.new MinerOptions.default Option.none 0 false

/-- Miner whose sealing is enabled and forced (`force_sealing = true`). -/
def mForced : Miner :=
  Miner.new { MinerOptions.default with force_sealing := true } Option.none 0 false

/-- Collaborator snapshot whose pool holds a local transaction. -/
def envLocal : Env := { envBase with has_local_transactions := true }

/-- Miner whose work history holds exactly the candidate `blk3`
(resubmission enabled, as by default). -/
def mQ3 : Miner :=
  { mBase with sealing := { mBase.sealing with
      queue := { mBase.sealing.queue with pending := [blk3] } } }

/-- Same as `mQ3` but with `enable_resubmission = false`. -/
def mQ3take : Miner :=
  { mQ3 with options := { mQ3.options with enable_resubmission := false } }

/-- Collaborator snapshot at a fresh chain (best block 0, so assembly
produces block number 1) whose engine params carry a bug-fix hard fork and
whose pool holds a local transaction (so the reseal gate passes). -/
def env6 : Env := { envLocal with contains_bugfix_hard_fork := true }

/-- C1: the claim says `requires_reseal` returns false whenever
`sealing.enabled` is false and can return true only when it is true.  The
source gate is inverted (`if sealing.enabled { return false }`, line 469,
with a trace message saying "sealing is disabled"): with sealing enabled and
forced sealing on, it returns false; with sealing disabled and a local
transaction in the pool, it returns true.  The repository's own test
`should_not_seal_unless_enabled` reaches `requires_reseal(1)` with
`enabled = true` and asserts the result is true, which this gate violates. -/
theorem requires_reseal_gate_inverted :
    (mForced.sealing.enabled = true ∧ forced_sealing mForced = true ∧
      (requires_reseal mForced envBase 1).1 = false)
    ∧ (mBase.sealing.enabled = false ∧
      (requires_reseal mBase envLocal 1).1 = true) := by
  decide

/-- C2 counterexample: with `pending_set = AlwaysQueue` (the default), a
non-empty pool and an empty work history, `pending_transactions` returns
`none` instead of reading live from the pool as the claim states. -/
theorem pending_transactions_alwaysqueue_cex :
    mBase.options.pending_set = PendingSet.AlwaysQueue
    ∧ pending_transactions mBase 0 = Option.none
    ∧ pending_transactions_claimed mBase [txA] 0 = some [txA]
    ∧ pending_transactions mBase 0 ≠ pending_transactions_claimed mBase [txA] 0 := by
  decide

/-- C2 amended: `pending_transactions`, `pending_receipt` and
`pending_receipts` do not consult the `pending_set` mode at all — in both
modes they read from the newest work-history entry, and only if its block
number exceeds the supplied latest chain block number
(`from_pending_block` with a `none` fallback). -/
theorem pending_reads_ignore_pending_set (m : Miner) (ps : PendingSet)
    (best_block : Nat) (h : Nat) (cs : Nat → Nat)
    (ca : Nat → Nat → Nat → List Nat → Nat) :
    pending_transactions { m with options := { m.options with pending_set := ps } }
        best_block = pending_transactions m best_block
    ∧ pending_receipts { m with options := { m.options with pending_set := ps } }
        best_block = pending_receipts m best_block
    ∧ pending_receipt { m with options := { m.options with pending_set := ps } }
        cs ca best_block h = pending_receipt m cs ca best_block h
    ∧ pending_transactions m best_block =
        from_pending_block m best_block (fun _ => Option.none)
          (fun pending => some pending.transactions) := by
  exact ⟨rfl, rfl, rfl, rfl⟩

/-- C8: `pending_block`, `pending_state` and `pending_block_header` return a
clone of the corresponding field of the newest work-history entry iff the
history is non-empty and that entry's number strictly exceeds
`latest_block_number`, and `none` otherwise. -/
theorem pending_block_queries (m : Miner) (latest_block_number : Nat) :
    pending_block m latest_block_number =
      (match m.sealing.queue.peek_last_ref with
       | some b => if latest_block_number < b.header.number
           then some (b.header, b.transactions) else Option.none
       | Option.none => Option.none)
    ∧ pending_state m latest_block_number =
      (match m.sealing.queue.peek_last_ref with
       | some b => if latest_block_number < b.header.number
           then some b.state else Option.none
       | Option.none => Option.none)
    ∧ pending_block_header m latest_block_number =
      (match m.sealing.queue.peek_last_ref with
       | some b => if latest_block_number < b.header.number
           then some b.header else Option.none
       | Option.none => Option.none) := by
  unfold pending_block pending_state pending_block_header
    map_existing_pending_block from_pending_block
  rcases m.sealing.queue.peek_last_ref with _ | b
  · exact ⟨rfl, rfl, rfl⟩
  · by_cases hlt : latest_block_number < b.header.number <;>
      simp [hlt]

/-- C10: `set_author` writes the new author into the authoring params before
the signer check, so the author field holds the new address afterwards in
every branch — including the error returns (missing account provider, sign
failure). -/
theorem set_author_persists_author (m : Miner) (env : Env) (address : Nat)
    (password : Option Nat) :
    ((set_author m env address password).2).params.author = address := by
  unfold set_author
  dsimp only
  split
  · split
    · rcases env.account_sign address (password.getD 0) with _ | e <;> rfl
    · rfl
  · rfl

/-- Membership in `hashInsert`. -/
theorem mem_hashInsert (x h : Nat) (s : List Nat) :
    x ∈ hashInsert h s ↔ x = h ∨ x ∈ s := by
  unfold hashInsert
  split
  · rename_i hmem
    constructor
    · exact fun hx => Or.inr hx
    · rintro (rfl | hx)
      · exact hmem
      · exact hx
  · simp [or_comm]

/-- C4: on a `BlockGasLimitReached { gas_limit, gas_used, gas }` push failure
during block assembly: the transaction is marked invalid iff
`gas > gas_limit`; draining breaks iff `gas_limit - gas_used < 21000` or the
incremented skipped counter exceeds 8; the skipped counter is incremented
exactly when the gas-left check passes; and on a break the remaining pool
transactions are not processed. -/
theorem block_gas_limit_policy (st : DrainState) (hash gas_limit gas_used gas : Nat)
    (hfresh : hash ∉ st.invalid_transactions) :
    (hash ∈ (drain_step st hash
        (PushResult.BlockGasLimitReached gas_limit gas_used gas)).1.invalid_transactions
      ↔ gas_limit < gas)
    ∧ ((drain_step st hash
        (PushResult.BlockGasLimitReached gas_limit gas_used gas)).2 = true
      ↔ (gas_limit - gas_used < 21000 ∨ 8 < st.skipped_transactions + 1))
    ∧ ((drain_step st hash
        (PushResult.BlockGasLimitReached gas_limit gas_used gas)).1.skipped_transactions
      = if gas_limit - gas_used < 21000 then st.skipped_transactions
        else st.skipped_transactions + 1)
    ∧ (∀ (push : ClosedBlock → SignedTransaction → ClosedBlock × PushResult)
        (b : ClosedBlock) (tx : SignedTransaction) (rest : List SignedTransaction),
        (push b tx).2 = PushResult.BlockGasLimitReached gas_limit gas_used gas →
        gas_limit - gas_used < 21000 →
        drain push b st (tx :: rest) =
          ((push b tx).1, (drain_step st tx.hash (push b tx).2).1)) := by
  refine ⟨?_, ?_, ?_, ?_⟩
  · unfold drain_step
    by_cases hg : gas_limit < gas <;>
      by_cases hleft : gas_limit - gas_used < 21000 <;>
        by_cases hskip : 8 < st.skipped_transactions + 1 <;>
          simp [hg, hleft, hskip, mem_hashInsert, hfresh]
  · unfold drain_step
    by_cases hleft : gas_limit - gas_used < 21000 <;>
      by_cases hskip : 8 < st.skipped_transactions + 1 <;>
        by_cases hg : gas_limit < gas <;>
          simp [hg, hleft, hskip]
  · unfold drain_step
    by_cases hleft : gas_limit - gas_used < 21000 <;>
      by_cases hskip : 8 < st.skipped_transactions + 1 <;>
        by_cases hg : gas_limit < gas <;>
          simp [hg, hleft, hskip]
  · intro push b tx rest hpush hleft
    unfold drain
    rcases hp : push b tx with ⟨b', result⟩
    rw [hp] at hpush
    simp only at hpush
    subst hpush
    have hbrk : (drain_step st tx.hash
        (PushResult.BlockGasLimitReached gas_limit gas_used gas)).2 = true := by
      unfold drain_step
      by_cases hg : gas_limit < gas <;> simp [hg, hleft]
    rcases hd : drain_step st tx.hash
        (PushResult.BlockGasLimitReached gas_limit gas_used gas) with ⟨st', brk⟩
    rw [hd] at hbrk
    simp only at hbrk
    subst hbrk
    simp [hp, hd]

/-- C4 witness: a concrete gas-over-limit failure with less than 21000 gas
left marks the transaction invalid, stops the drain, and skips the rest of
the queue. -/
theorem block_gas_limit_policy_witness :
    ((41 : Nat) ∈ (drain_step ⟨[], [], 0, 0⟩ 41
        (PushResult.BlockGasLimitReached 100000 90000 200000)).1.invalid_transactions
      ↔ (100000 : Nat) < 200000)
    ∧ (drain (fun b _ => (b, PushResult.BlockGasLimitReached 100000 90000 200000))
        blk1 ⟨[], [], 0, 0⟩ [txA, txA] =
        (blk1, (drain_step ⟨[], [], 0, 0⟩ txA.hash
          (PushResult.BlockGasLimitReached 100000 90000 200000)).1)) := by
  have h := block_gas_limit_policy ⟨[], [], 0, 0⟩ 41 100000 90000 200000 (by decide)
  refine ⟨h.1, ?_⟩
  have h41 : txA.hash = 41 := by decide
  have := h.2.2.2 (fun b _ => (b, PushResult.BlockGasLimitReached 100000 90000 200000))
    blk1 txA [txA] rfl (by decide)
  simpa [h41] using this

/-- Push preserves the capacity field. -/
theorem UsingQueue.push_max_size {α : Type} (q : UsingQueue α) (b : α) :
    (q.push b).max_size = q.max_size := rfl

/-- Push keeps the history length within the capacity. -/
theorem UsingQueue.push_length_le {α : Type} (q : UsingQueue α) (b : α)
    (h : q.pending.length ≤ q.max_size) :
    (q.push b).pending.length ≤ q.max_size := by
  unfold UsingQueue.push
  dsimp only
  split
  · rename_i hgt
    simp only [List.length_tail, List.length_append, List.length_cons,
      List.length_nil] at *
    omega
  · rename_i hle
    simp only [not_lt, List.length_append, List.length_cons, List.length_nil] at *
    omega

/-- Any sequence of pushes starting within capacity stays within capacity. -/
theorem foldl_push_length_le {α : Type} (bs : List α) :
    ∀ q : UsingQueue α, q.pending.length ≤ q.max_size →
      (List.foldl UsingQueue.push q bs).pending.length ≤
        (List.foldl UsingQueue.push q bs).max_size := by
  induction bs with
  | nil => intro q h; exact h
  | cons b bs ih =>
    intro q h
    simpa using ih (q.push b) (UsingQueue.push_length_le q b h)

/-- Capacity is constant along any sequence of pushes. -/
theorem foldl_push_max_size {α : Type} (bs : List α) :
    ∀ q : UsingQueue α, (List.foldl UsingQueue.push q bs).max_size = q.max_size := by
  induction bs with
  | nil => intro q; rfl
  | cons b bs ih => intro q; simpa using ih (q.push b)

/-- C9: for every sequence of pushes into a fresh work history of capacity
`n`, the number of stored candidate blocks never exceeds `n`; pushing into a
full history evicts the oldest entry; and `Miner::new` creates the history
with capacity `work_queue_size`, whose default is 20. -/
theorem work_history_bound :
    (∀ (n : Nat) (bs : List ClosedBlock),
      (List.foldl UsingQueue.push (UsingQueue.new ClosedBlock n) bs).pending.length ≤ n)
    ∧ (∀ (q : UsingQueue ClosedBlock) (b : ClosedBlock),
        q.pending.length = q.max_size → 0 < q.max_size →
        (q.push b).pending = q.pending.tail ++ [b])
    ∧ (∀ (options : MinerOptions) (si : Option Bool) (now : Nat) (accounts : Bool),
        (Miner.new options si now accounts).sealing.queue =
          UsingQueue.new ClosedBlock options.work_queue_size)
    ∧ MinerOptions.default.work_queue_size = 20 := by
  refine ⟨?_, ?_, fun _ _ _ _ => rfl, rfl⟩
  · intro n bs
    have h := foldl_push_length_le bs (UsingQueue.new ClosedBlock n) (by simp [UsingQueue.new])
    rwa [foldl_push_max_size bs (UsingQueue.new ClosedBlock n)] at h
  · intro q b hfull hpos
    unfold UsingQueue.push
    dsimp only
    have hgt : q.max_size < (q.pending ++ [b]).length := by
      simp [List.length_append, hfull]
    rw [if_pos hgt]
    rcases hq : q.pending with _ | ⟨x, xs⟩
    · rw [hq] at hfull
      simp at hfull
      omega
    · simp

/-- C9 witness: pushing into a full two-slot history evicts the oldest
entry. -/
theorem work_history_bound_witness :
    ((UsingQueue.mk 2 [blk1, blk3] false).push blk1).pending =
      (UsingQueue.mk 2 [blk1, blk3] false).pending.tail ++ [blk1] :=
  work_history_bound.2.1 (UsingQueue.mk 2 [blk1, blk3] false) blk1
    (by decide) (by decide)

/-- C7 counterexample: with `reseal_on_external_tx` set and the reseal
throttle open, a single external transaction whose pool import FAILS still
triggers `update_sealing` — the source checks `!results.is_empty()`, not
that any import succeeded. -/
theorem import_external_trigger_cex :
    (import_external_transactions
        { mBase with options := { mBase.options with reseal_on_external_tx := true } }
        { envBase with pool_import := fun txs => txs.map (fun _ => TxResult.failed 0) }
        [txA]).1 = [TxResult.failed 0]
    ∧ (import_external_transactions
        { mBase with options := { mBase.options with reseal_on_external_tx := true } }
        { envBase with pool_import := fun txs => txs.map (fun _ => TxResult.failed 0) }
        [txA]).2.1 = true := by
  decide

/-- C7 amended: `import_external_transactions` imports the given
transactions tagged `Unverified` and triggers `update_sealing` exactly when
the per-transaction result list is non-empty — equivalently, since the pool
returns one result per transaction, when the supplied list is non-empty —
`reseal_on_external_tx` is set, and `reseal_allowed` holds
(`now > next_allowed_reseal`); whether any import succeeded is irrelevant. -/
theorem import_external_trigger_condition (m : Miner) (env : Env)
    (transactions : List SignedTransaction)
    (hlen : (env.pool_import (transactions.map PoolTx.Unverified)).length =
      transactions.length) :
    (import_external_transactions m env transactions).1 =
      env.pool_import (transactions.map PoolTx.Unverified)
    ∧ ((import_external_transactions m env transactions).2.1 = true ↔
        (transactions ≠ []
          ∧ m.options.reseal_on_external_tx = true
          ∧ m.sealing.reseal_allowed env.now = true)) := by
  have hnil_iff : env.pool_import (transactions.map PoolTx.Unverified) = [] ↔
      transactions = [] := by
    constructor
    · intro hnil
      rw [hnil] at hlen
      exact List.length_eq_zero.mp (by simpa using hlen.symm)
    · intro hnil
      subst hnil
      exact List.length_eq_zero.mp (by simpa using hlen)
  unfold import_external_transactions
  dsimp only
  split
  · rename_i hcond
    simp only [Bool.and_eq_true, Bool.not_eq_true', List.isEmpty_eq_false] at hcond
    refine ⟨rfl, ?_⟩
    simp only [true_iff]
    obtain ⟨⟨hne, hopt⟩, hallow⟩ := hcond
    exact ⟨fun hnil => hne (hnil_iff.mpr hnil), hopt, hallow⟩
  · rename_i hcond
    refine ⟨rfl, ?_⟩
    constructor
    · intro habs
      exact absurd habs (by simp)
    · rintro ⟨hne, hopt, hallow⟩
      exact absurd (by
        simp only [Bool.and_eq_true, Bool.not_eq_true', List.isEmpty_eq_false]
        exact ⟨⟨fun hnil => hne (hnil_iff.mp hnil), hopt⟩, hallow⟩) hcond

/-- C7 amended witness: a successful single-transaction import with
resealing enabled and the throttle open triggers `update_sealing`. -/
theorem import_external_trigger_condition_witness :
    (import_external_transactions
        { mBase with options := { mBase.options with reseal_on_external_tx := true } }
        envBase [txA]).2.1 = true ↔
      (([txA] : List SignedTransaction) ≠ []
        ∧ ({ mBase with options :=
            { mBase.options with reseal_on_external_tx := true } } :
            Miner).options.reseal_on_external_tx = true
        ∧ ({ mBase with options :=
            { mBase.options with reseal_on_external_tx := true } } :
            Miner).sealing.reseal_allowed envBase.now = true) :=
  (import_external_trigger_condition
    { mBase with options := { mBase.options with reseal_on_external_tx := true } }
    envBase [txA] (by decide)).2

/-- C5: `seal_and_import_block_internally` returns false and leaves the
state untouched — for every engine, so without consulting it — whenever the
candidate has no transactions, `forced_sealing()` is false, and `now` is not
past `next_mandatory_reseal`; and whenever it returns true (a successful
Proposal or Regular seal), the new state has
`next_mandatory_reseal = now + reseal_max_period`. -/
theorem seal_internally_policy (m : Miner) (env : Env) (block : ClosedBlock) :
    (block.transactions = [] → forced_sealing m = false →
      env.now ≤ m.sealing.next_mandatory_reseal →
      ∀ (g : ClosedBlock → Header → Seal) (ph : Nat → Option Header)
        (sb : ClosedBlock → List (List Nat) → Option SealedBlock)
        (imp : SealedBlock → Bool),
        seal_and_import_block_internally m
          { env with
            generate_seal := g
            block_header := ph
            seal_block := sb
            import_sealed_block := imp } block = (false, m))
    ∧ ((seal_and_import_block_internally m env block).1 = true →
        (seal_and_import_block_internally m env block).2.sealing.next_mandatory_reseal
          = env.now + m.options.reseal_max_period) := by
  constructor
  · intro htx hforced hnow g ph sb imp
    unfold seal_and_import_block_internally
    have hempty : block.transactions.isEmpty = true := by
      rw [htx]; rfl
    rw [if_pos]
    simp only [hempty, hforced, Bool.not_false, Bool.true_and, Bool.and_true,
      decide_eq_true_eq]
    exact hnow
  · unfold seal_and_import_block_internally
    dsimp only
    split
    · intro habs
      exact absurd habs (by simp)
    · rcases env.block_header block.header.parent_hash with _ | parent_header
      · intro habs
        exact absurd habs (by simp)
      · dsimp only
        rcases env.generate_seal block parent_header with s | s | _
        · dsimp only
          rcases env.seal_block block s with _ | sealed <;> intro _ <;> rfl
        · dsimp only
          rcases env.seal_block block s with _ | sealed <;> intro _ <;> rfl
        · intro habs
          exact absurd habs (by simp)

/-- C5 witness: the empty-candidate early return and the mandatory-deadline
update on a successful Regular seal, at concrete inputs.  `mBase` has
`next_mandatory_reseal = 120` and `envBase.now = 100 ≤ 120`; the second
instance uses a non-empty candidate and an engine producing a Regular seal
that imports fine. -/
theorem seal_internally_policy_witness :
    (seal_and_import_block_internally mBase
      { envBase with
        generate_seal := fun _ _ => Seal.Regular []
        block_header := envBase.block_header
        seal_block := envBase.seal_block
        import_sealed_block := envBase.import_sealed_block } blk1 = (false, mBase))
    ∧ ((seal_and_import_block_internally mBase
          { envBase with generate_seal := fun _ _ => Seal.Regular [[1]] }
          blk3).2.sealing.next_mandatory_reseal
        = envBase.now + mBase.options.reseal_max_period) := by
  constructor
  · exact (seal_internally_policy mBase envBase blk1).1 (by decide) (by decide)
      (by decide) (fun _ _ => Seal.Regular []) envBase.block_header
      envBase.seal_block envBase.import_sealed_block
  · exact (seal_internally_policy mBase
      { envBase with generate_seal := fun _ _ => Seal.Regular [[1]] } blk3).2
      (by decide)

/-- When no element matches, the newest-to-oldest scan finds nothing. -/
theorem removeLastMatching_eq_none {α : Type} (p : α → Bool) (l : List α)
    (h : ∀ x ∈ l, p x = false) : removeLastMatching p l = Option.none := by
  induction l with
  | nil => rfl
  | cons x xs ih =>
    unfold removeLastMatching
    rw [ih (fun y hy => h y (List.mem_cons_of_mem x hy))]
    simp [h x (List.mem_cons_self x xs)]

/-- When exactly one element matches, the newest-to-oldest scan returns it,
and the remainder contains no match. -/
theorem removeLastMatching_of_filter_single {α : Type} (p : α → Bool) :
    ∀ (l : List α) (b : α), l.filter p = [b] →
      ∃ rest, removeLastMatching p l = some (b, rest) ∧ rest.filter p = [] := by
  intro l
  induction l with
  | nil => intro b h; simp at h
  | cons x xs ih =>
    intro b h
    rw [List.filter_cons] at h
    by_cases hx : p x = true
    · rw [if_pos hx] at h
      injection h with hxb hxs
      subst hxb
      refine ⟨xs, ?_, hxs⟩
      have hnone : removeLastMatching p xs = Option.none :=
        removeLastMatching_eq_none p xs (fun y hy => by
          simpa using List.filter_eq_nil_iff.mp hxs y hy)
      unfold removeLastMatching
      rw [hnone]
      simp [hx]
    · rw [if_neg hx] at h
      obtain ⟨rest, hrm, hrest⟩ := ih b h
      refine ⟨x :: rest, ?_, ?_⟩
      · unfold removeLastMatching
        rw [hrm]
      · rw [List.filter_cons, if_neg hx, hrest]

/-- When no work-history entry has the requested hash, `submit_seal` fails
with `PowHashInvalid` and leaves the miner unchanged. -/
theorem submit_seal_not_found (m : Miner) (env : Env) (block_hash : Nat)
    (s : List (List Nat))
    (hfil : m.sealing.queue.pending.filter (fun c => c.hash == block_hash) = []) :
    submit_seal m env block_hash s = (Except.error MinerError.PowHashInvalid, m) := by
  have hnone : removeLastMatching (fun c => c.hash == block_hash)
      m.sealing.queue.pending = Option.none :=
    removeLastMatching_eq_none _ _ (fun y hy => by
      simpa using List.filter_eq_nil_iff.mp hfil y hy)
  unfold submit_seal UsingQueue.get_used_if
  rw [hnone]

/-- When exactly one work-history entry has the requested hash,
`submit_seal` seals it; the queue keeps the entry under `Clone`
(`enable_resubmission`) and drops it under `Take`. -/
theorem submit_seal_found (m : Miner) (env : Env) (block_hash : Nat)
    (s : List (List Nat)) (b : ClosedBlock) (rest : List ClosedBlock)
    (hrm : removeLastMatching (fun c => c.hash == block_hash)
      m.sealing.queue.pending = some (b, rest)) :
    submit_seal m env block_hash s =
      ((match env.try_seal b s with
        | Option.none => Except.error MinerError.PowInvalid
        | some sealed =>
          if env.import_sealed_block sealed then Except.ok ()
          else Except.error MinerError.ImportFailed),
       { m with sealing := { m.sealing with queue :=
          if m.options.enable_resubmission then
            { m.sealing.queue with in_use := true }
          else
            { m.sealing.queue with pending := rest, in_use := true } } }) := by
  unfold submit_seal UsingQueue.get_used_if
  by_cases hr : m.options.enable_resubmission <;>
    simp only [hr, if_pos, if_neg, Bool.false_eq_true, not_false_iff, ite_true,
      ite_false] <;>
    rw [hrm] <;>
    cases htry : env.try_seal b s <;>
    simp [htry] <;>
    (try (split <;> rfl))

/-- C3: `submit_seal` looks the candidate up by hash with `Clone` when
`enable_resubmission` and `Take` otherwise; a missing hash fails with
`PowHashInvalid`; a found candidate whose seal `try_seal` rejects fails with
`PowInvalid`; with an accepting engine and importer, under resubmission two
distinct seals for the same candidate both succeed, and without it the
second submission fails with `PowHashInvalid`. -/
theorem submit_seal_policy (m : Miner) (env : Env) (block_hash : Nat)
    (s1 s2 : List (List Nat)) (b : ClosedBlock) :
    (m.sealing.queue.pending.filter (fun c => c.hash == block_hash) = [] →
      (submit_seal m env block_hash s1).1 = Except.error MinerError.PowHashInvalid)
    ∧ (m.sealing.queue.pending.filter (fun c => c.hash == block_hash) = [b] →
        env.try_seal b s1 = Option.none →
        (submit_seal m env block_hash s1).1 = Except.error MinerError.PowInvalid)
    ∧ (m.sealing.queue.pending.filter (fun c => c.hash == block_hash) = [b] →
        (∀ s, env.try_seal b s = some ⟨b, s⟩) →
        (∀ sealed, env.import_sealed_block sealed = true) →
        m.options.enable_resubmission = true →
        (submit_seal m env block_hash s1).1 = Except.ok ()
        ∧ (submit_seal (submit_seal m env block_hash s1).2 env block_hash s2).1 =
            Except.ok ())
    ∧ (m.sealing.queue.pending.filter (fun c => c.hash == block_hash) = [b] →
        (∀ s, env.try_seal b s = some ⟨b, s⟩) →
        (∀ sealed, env.import_sealed_block sealed = true) →
        m.options.enable_resubmission = false →
        (submit_seal m env block_hash s1).1 = Except.ok ()
        ∧ (submit_seal (submit_seal m env block_hash s1).2 env block_hash s2).1 =
            Except.error MinerError.PowHashInvalid) := by
  refine ⟨?_, ?_, ?_, ?_⟩
  · intro hfil
    rw [submit_seal_not_found m env block_hash s1 hfil]
  · intro hfil htry
    obtain ⟨rest, hrm, _⟩ := removeLastMatching_of_filter_single _ _ b hfil
    rw [submit_seal_found m env block_hash s1 b rest hrm]
    simp [htry]
  · intro hfil htry himp hres
    obtain ⟨rest, hrm, _⟩ := removeLastMatching_of_filter_single _ _ b hfil
    have h1 := submit_seal_found m env block_hash s1 b rest hrm
    rw [h1]
    constructor
    · simp [htry s1, himp]
    · rw [hres]
      simp only [ite_true]
      have hrm2 : removeLastMatching (fun c => c.hash == block_hash)
          ({ m with sealing := { m.sealing with queue :=
            { m.sealing.queue with in_use := true } } } :
            Miner).sealing.queue.pending = some (b, rest) := hrm
      rw [submit_seal_found _ env block_hash s2 b rest hrm2]
      simp [htry s2, himp]
  · intro hfil htry himp hres
    obtain ⟨rest, hrm, hrest⟩ := removeLastMatching_of_filter_single _ _ b hfil
    have h1 := submit_seal_found m env block_hash s1 b rest hrm
    rw [h1]
    constructor
    · simp [htry s1, himp]
    · rw [hres]
      simp only [Bool.false_eq_true, ite_false]
      exact congrArg Prod.fst (submit_seal_not_found _ env block_hash s2 hrest)

/-- C3 witness: with the history holding exactly `blk3` (hash 13), a wrong
hash fails with `PowHashInvalid`; a rejecting engine yields `PowInvalid`;
under resubmission two distinct seals both import; without it the second
submission fails with `PowHashInvalid`. -/
theorem submit_seal_policy_witness :
    (submit_seal mQ3
        { envBase with try_seal := fun _ _ => Option.none } 99 [[1]]).1 =
      Except.error MinerError.PowHashInvalid
    ∧ (submit_seal mQ3
        { envBase with try_seal := fun _ _ => Option.none } 13 [[1]]).1 =
      Except.error MinerError.PowInvalid
    ∧ ((submit_seal mQ3 envBase 13 [[1]]).1 = Except.ok ()
        ∧ (submit_seal (submit_seal mQ3 envBase 13 [[1]]).2 envBase 13 [[2]]).1 =
          Except.ok ())
    ∧ ((submit_seal mQ3take envBase 13 [[1]]).1 = Except.ok ()
        ∧ (submit_seal (submit_seal mQ3take envBase 13 [[1]]).2 envBase 13 [[2]]).1 =
          Except.error MinerError.PowHashInvalid) := by
  refine ⟨?_, ?_, ?_, ?_⟩
  · exact (submit_seal_policy mQ3
      { envBase with try_seal := fun _ _ => Option.none } 99 [[1]] [[2]] blk3).1
      (by decide)
  · exact (submit_seal_policy mQ3
      { envBase with try_seal := fun _ _ => Option.none } 13 [[1]] [[2]] blk3).2.1
      (by decide) rfl
  · exact (submit_seal_policy mQ3 envBase 13 [[1]] [[2]] blk3).2.2.1
      (by decide) (fun _ => rfl) (fun _ => rfl) (by decide)
  · exact (submit_seal_policy mQ3take envBase 13 [[1]] [[2]] blk3).2.2.2
      (by decide) (fun _ => rfl) (fun _ => rfl) (by decide)

/-- When the reseal gate passes, its only state effect is advancing
`next_allowed_reseal` to `now + reseal_min_period`. -/
theorem requires_reseal_true_state (m : Miner) (env : Env) (bb : Nat)
    (h : (requires_reseal m env bb).1 = true) :
    (requires_reseal m env bb).2 =
      { m with sealing := { m.sealing with
          next_allowed_reseal := env.now + m.options.reseal_min_period } } := by
  unfold requires_reseal at h ⊢
  by_cases h1 : m.sealing.enabled
  · rw [if_pos h1] at h
    exact absurd h (by simp)
  · rw [if_neg h1] at h ⊢
    dsimp only at h ⊢
    split at h
    · exact absurd h (by simp)
    · rename_i hcond
      rw [if_neg hcond]

/-- `pop_if` leaves the history unchanged or removes exactly the newest
entry, and never touches the in-use flag or the capacity. -/
theorem pop_if_state {α : Type} (q : UsingQueue α) (p : α → Bool) :
    ((q.pop_if p).2.pending = q.pending ∨ (q.pop_if p).2.pending = q.pending.dropLast)
    ∧ (q.pop_if p).2.in_use = q.in_use
    ∧ (q.pop_if p).2.max_size = q.max_size := by
  unfold UsingQueue.pop_if
  cases hl : q.pending.getLast? with
  | none => exact ⟨Or.inl rfl, rfl, rfl⟩
  | some b =>
    dsimp only
    by_cases hp : p b = true
    · rw [if_pos hp]
      exact ⟨Or.inr rfl, rfl, rfl⟩
    · rw [if_neg hp]
      exact ⟨Or.inl rfl, rfl, rfl⟩

/-- `prepare_block` mutates the miner only through `pop_if` on the work
history (the reopen-or-build choice). -/
theorem prepare_block_state (m : Miner) (env : Env) :
    (prepare_block m env).2.1 =
      { m with sealing := { m.sealing with queue :=
          (m.sealing.queue.pop_if
            (fun b => b.header.parent_hash == env.best_block_hash)).2 } } := rfl

/-- When the gate passes and the assembled block is number 1 on a chain
whose engine params carry a bug-fix hard fork, `update_sealing` aborts,
returning the state as left by the gate and the assembly. -/
theorem update_sealing_abort (m : Miner) (env : Env)
    (hreq : (requires_reseal m env env.best_block_number).1 = true)
    (hnum : (prepare_block (requires_reseal m env env.best_block_number).2
      env).1.1.header.number = 1)
    (hfork : env.contains_bugfix_hard_fork = true) :
    update_sealing m env =
      (SealingOutcome.AbortedBugfixFork,
       (prepare_block (requires_reseal m env env.best_block_number).2 env).2.1) := by
  unfold update_sealing
  rcases hrr : requires_reseal m env env.best_block_number with ⟨req, m1⟩
  rw [hrr] at hreq hnum
  dsimp only at hreq hnum
  subst hreq
  dsimp only
  rw [if_pos rfl]
  rcases hpb : prepare_block m1 env with ⟨⟨block, owh⟩, m2, st⟩
  rw [hpb] at hnum
  dsimp only at hnum
  simp [hnum, hfork]

/-- C6 counterexample: at a concrete state whose gate passes (a local
transaction is pending), with a fresh chain (assembled block number 1) and
bug-fix-hard-fork engine params, `update_sealing` aborts before dispatch —
but the state IS mutated (`next_allowed_reseal` was advanced by the gate),
refuting the claim's "no state mutation results from the call". -/
theorem update_sealing_bugfix_mutates :
    (update_sealing mBase env6).1 = SealingOutcome.AbortedBugfixFork
    ∧ (update_sealing mBase env6).2 ≠ mBase
    ∧ (update_sealing mBase env6).2.sealing.next_allowed_reseal = 102
    ∧ mBase.sealing.next_allowed_reseal = 0 := by
  decide

/-- C6 amended: when `update_sealing` assembles a block of number 1 and the
engine params contain a bug-fix hard fork, the call aborts before dispatch:
no seal is produced, no block is imported or broadcast (the result does not
depend on the engine seal functions at all), and the only state mutations
are those of the gate and of assembly — `next_allowed_reseal` is advanced
to `now + reseal_min_period` and the newest work-history candidate may have
been consumed by `pop_if`; every other field is unchanged. -/
theorem update_sealing_bugfix_guard (m : Miner) (env : Env)
    (hreq : (requires_reseal m env env.best_block_number).1 = true)
    (hnum : (prepare_block (requires_reseal m env env.best_block_number).2
      env).1.1.header.number = 1)
    (hfork : env.contains_bugfix_hard_fork = true) :
    (update_sealing m env).1 = SealingOutcome.AbortedBugfixFork
    ∧ (update_sealing m env).2.params = m.params
    ∧ (update_sealing m env).2.listeners = m.listeners
    ∧ (update_sealing m env).2.options = m.options
    ∧ (update_sealing m env).2.accounts = m.accounts
    ∧ (update_sealing m env).2.sealing.enabled = m.sealing.enabled
    ∧ (update_sealing m env).2.sealing.next_mandatory_reseal =
        m.sealing.next_mandatory_reseal
    ∧ (update_sealing m env).2.sealing.sealing_block_last_request =
        m.sealing.sealing_block_last_request
    ∧ (update_sealing m env).2.sealing.next_allowed_reseal =
        env.now + m.options.reseal_min_period
    ∧ (update_sealing m env).2.sealing.queue.in_use = m.sealing.queue.in_use
    ∧ (update_sealing m env).2.sealing.queue.max_size = m.sealing.queue.max_size
    ∧ ((update_sealing m env).2.sealing.queue.pending = m.sealing.queue.pending
        ∨ (update_sealing m env).2.sealing.queue.pending =
            m.sealing.queue.pending.dropLast)
    ∧ (∀ (g : ClosedBlock → Header → Seal)
        (sb : ClosedBlock → List (List Nat) → Option SealedBlock)
        (imp : SealedBlock → Bool),
        update_sealing m
          { env with
            generate_seal := g
            seal_block := sb
            import_sealed_block := imp } = update_sealing m env) := by
  have habort := update_sealing_abort m env hreq hnum hfork
  have hm1 := requires_reseal_true_state m env env.best_block_number hreq
  have hqueue := pop_if_state
    ((requires_reseal m env env.best_block_number).2).sealing.queue
    (fun b => b.header.parent_hash == env.best_block_hash)
  rw [habort]
  dsimp only
  rw [prepare_block_state]
  refine ⟨rfl, ?_, ?_, ?_, ?_, ?_, ?_, ?_, ?_, ?_, ?_, ?_, ?_⟩
  · rw [hm1]
  · rw [hm1]
  · rw [hm1]
  · rw [hm1]
  · rw [hm1]
  · rw [hm1]
  · rw [hm1]
  · rw [hm1]
  · rw [hm1] at hqueue ⊢
    dsimp only at hqueue ⊢
    exact hqueue.2.1
  · rw [hm1] at hqueue ⊢
    dsimp only at hqueue ⊢
    exact hqueue.2.2
  · rw [hm1] at hqueue ⊢
    dsimp only at hqueue ⊢
    exact hqueue.1
  · intro g sb imp
    have habort2 := update_sealing_abort m
      { env with
        generate_seal := g
        seal_block := sb
        import_sealed_block := imp } hreq hnum hfork
    rw [habort2]
    rfl

/-- C6 amended witness: at the concrete fixture, the call aborts and the
reseal throttle was advanced by the gate. -/
theorem update_sealing_bugfix_guard_witness :
    (update_sealing mBase env6).1 = SealingOutcome.AbortedBugfixFork
    ∧ (update_sealing mBase env6).2.sealing.next_allowed_reseal =
        env6.now + mBase.options.reseal_min_period := by
  have h := update_sealing_bugfix_guard mBase env6 (by decide) (by decide) (by decide)
  exact ⟨h.1, h.2.2.2.2.2.2.2.2.1⟩

end Parity
